import Mathlib

/-!
Verification development for the noisysockets packet source/sink adapter
(source_sink.go).

The adapter bridges a Noise-protocol transport and a userspace IP stack:
`Write` injects decrypted payloads into the stack as inbound traffic,
`Read` drains outbound packets from an internal delivery queue and resolves
their destination peer, `AddPeer` maintains the peer registry, `Close`
tears the adapter down, and `newSourceSink` constructs it.

External collaborators (the gvisor stack, its header parsers, the channel
endpoint) are modelled at their interface boundary: a packet carries the
protocol number the stack tagged it with, the boolean outcome of the
header validity check `hdr.IsValid(pkt.Size())`, its destination address
and its payload bytes; fallible stack calls during construction are
modelled by boolean failure oracles.  Go maps are modelled as functions
into `Option`; Go slices as lists; a Go runtime panic from an
out-of-bounds index is modelled as a distinguished `crash` outcome.
-/

namespace SourceSink

/-- A valid IP address as used by the adapter (`netip.Addr`): an opaque
identity together with its version.  `isV4` mirrors `netip.Addr.Is4`; a
valid address that is not IPv4 is IPv6 (`Is6`). -/
structure IPAddr where
  val : Nat
  isV4 : Bool
deriving DecidableEq

/-- A peer identity (`transport.NoisePublicKey`), opaque to the adapter. -/
abbrev Key := Nat

/-- The network-layer protocol number attached to a packet by the stack
(`pkt.NetworkProtocolNumber`): IPv4, IPv6, or anything else. -/
inductive NetProto
  | v4
  | v6
  | other
deriving DecidableEq

/-- An outbound packet dequeued from the delivery queue
(`*stack.PacketBuffer`), modelled at the interface boundary:
`headerValid` is the result of the gvisor call `hdr.IsValid(pkt.Size())`
(structural validation of the network header against the packet length),
`dest` the destination address the header parser extracts, and `payload`
the bytes of `pkt.ToView()`. -/
structure Packet where
  proto : NetProto
  headerValid : Bool
  dest : IPAddr
  payload : List Nat
deriving DecidableEq

/-! ## Peer registry (`AddPeer` and the maps of `sourceSink`) -/

/-- The three registry maps of `sourceSink`: `peerNames`,
`peerAddresses` and `fromPeerAddress`.  Go maps become functions into
`Option`; the per-peer address list keeps its append order. -/
structure Registry where
  peerNames : String → Option Key
  peerAddresses : Key → List IPAddr
  fromPeerAddress : IPAddr → Option Key

/-- The freshly constructed registry: all three maps empty. -/
def emptyRegistry : Registry :=
  { peerNames := fun _ => none
    peerAddresses := fun _ => []
    fromPeerAddress := fun _ => none }

/-- One step of the loop body of `sourceSink.AddPeer`: append `addr` to
the peer's address list and overwrite the reverse index entry. -/
def addPeerStep (publicKey : Key) (r : Registry) (addr : IPAddr) : Registry :=
  { r with
    peerAddresses := fun k =>
      if k = publicKey then r.peerAddresses k ++ [addr] else r.peerAddresses k
    fromPeerAddress := fun a =>
      if a = addr then some publicKey else r.fromPeerAddress a }

/-- `sourceSink.AddPeer`: register the name (only when non-empty), then
for each address append it to the peer's list and insert it into the
reverse index. -/
def AddPeer (r : Registry) (name : String) (publicKey : Key) (addrs : List IPAddr) : Registry :=
  let r1 :=
    if name = "" then r
    else { r with peerNames := fun n => if n = name then some publicKey else r.peerNames n }
  addrs.foldl (addPeerStep publicKey) r1

/-- One `AddPeer` invocation: the arguments it was called with. -/
structure AddPeerCall where
  name : String
  publicKey : Key
  addrs : List IPAddr
deriving DecidableEq

/-- The registry obtained by running a sequence of `AddPeer` calls on the
freshly constructed adapter. -/
def runCalls (calls : List AddPeerCall) : Registry :=
  calls.foldl (fun r c => AddPeer r c.name c.publicKey c.addrs) emptyRegistry

/-- The identity supplied in the most recent call of the sequence that
registered the given address, if any. -/
def lastRegistrar (calls : List AddPeerCall) (a : IPAddr) : Option Key :=
  calls.foldl (fun acc c => if a ∈ c.addrs then some c.publicKey else acc) none

/-! ## Write path (`sourceSink.Write`) -/

/-- Error returned by `Write` on an unsupported address family
(`syscall.EAFNOSUPPORT`). -/
inductive WriteErr
  | eafnosupport
deriving DecidableEq

/-- The observable outcome of a `Write` call: the returned count, the
returned error, and the sequence of payloads injected into the stack via
`ep.InjectInbound`, each tagged with the network protocol it was injected
under. -/
structure WriteRet where
  count : Nat
  err : Option WriteErr
  injected : List (NetProto × List Nat)
deriving DecidableEq

/-- The high nibble of a byte, `b >> 4` in the source (payload elements
are 8-bit values, hence the reduction mod 256). -/
def nibble (b : Nat) : Nat := b % 256 / 16

/-- The loop of `sourceSink.Write`: skip payloads that are empty after
`offset`; inject nibble-4 payloads as IPv4 and nibble-6 payloads as IPv6;
on any other nibble stop with `EAFNOSUPPORT`.  Returns the error (if any)
and the accumulated injections. -/
def writeLoop (offset : Nat) :
    List (List Nat) → List (NetProto × List Nat) → Option WriteErr × List (NetProto × List Nat)
  | [], acc => (none, acc)
  | buf :: rest, acc =>
    if buf.length ≤ offset then writeLoop offset rest acc
    else if nibble (buf.getD offset 0) = 4 then
      writeLoop offset rest (acc ++ [(NetProto.v4, buf.drop offset)])
    else if nibble (buf.getD offset 0) = 6 then
      writeLoop offset rest (acc ++ [(NetProto.v6, buf.drop offset)])
    else (some WriteErr.eafnosupport, acc)

/-- `sourceSink.Write`: run the loop; on success return `len(bufs)` with
no error, on rejection return count 0 with `EAFNOSUPPORT`. -/
def Write (bufs : List (List Nat)) (offset : Nat) : WriteRet :=
  match writeLoop offset bufs [] with
  | (none, inj) => ⟨bufs.length, none, inj⟩
  | (some e, inj) => ⟨0, some e, inj⟩

/-- The injections `Write` performs for a batch none of whose payloads is
rejected: one per payload that is non-empty after `offset`, tagged by its
leading nibble. -/
def goodInjected (offset : Nat) : List (List Nat) → List (NetProto × List Nat)
  | [] => []
  | buf :: bufs =>
    if buf.length ≤ offset then goodInjected offset bufs
    else if nibble (buf.getD offset 0) = 4 then
      (NetProto.v4, buf.drop offset) :: goodInjected offset bufs
    else if nibble (buf.getD offset 0) = 6 then
      (NetProto.v6, buf.drop offset) :: goodInjected offset bufs
    else goodInjected offset bufs

/-! ## Close path (`sourceSink.Close`) -/

/-- The four teardown steps of `sourceSink.Close`, in source order. -/
inductive CloseStep
  | removeNIC
  | stackClose
  | epClose
  | closeQueue
deriving DecidableEq

/-- The observable outcome of `Close`: the ordered trace of teardown
steps executed and the error value returned to the caller. -/
structure CloseResult where
  steps : List CloseStep
  err : Option Unit
deriving DecidableEq

/-- `sourceSink.Close`: `RemoveNIC(1)`, `stack.Close()`, `ep.Close()`,
`close(incoming)`, then `return nil`.  The `tcpip.Error` that
`RemoveNIC` may produce (the oracle argument) is discarded by the
source, and the returned error is always nil. -/
def Close (removeNICErr : Option Unit) : CloseResult :=
  let t1 := [CloseStep.removeNIC]
  let t2 := t1 ++ [CloseStep.stackClose]
  let t3 := t2 ++ [CloseStep.epClose]
  let t4 := t3 ++ [CloseStep.closeQueue]
  ⟨t4, none⟩

/-! ## Read path (`sourceSink.Read`) -/

/-- The errors `Read` can return: `net.ErrClosed`, and the three
`fmt.Errorf` failures of `packetFn`. -/
inductive ReadErr
  | closed
  | invalidHeader
  | unknownProtocol
  | unknownDestination
deriving DecidableEq

/-- Result of processing one packet (`packetFn` in the source): a Go
runtime panic from an out-of-bounds slice index, a returned error, or
success with the number of bytes copied and the resolved peer. -/
inductive PFRes
  | crash
  | fail (e : ReadErr)
  | ok (n : Nat) (dst : Key)
deriving DecidableEq

/-- The closure `packetFn` of `sourceSink.Read`, processing the packet
destined for batch slot `idx`.  `bufLens` holds the length of each
supplied buffer, `sizesLen` and `destsLen` the lengths of the `sizes`
and `destinations` slices, `resolve` the `fromPeerAddress` map at the
time of the call.  Source order: switch on the protocol number (unknown
protocol error), validate the header (invalid header error), write
`destinations[idx]` (bounds-checked, written even when the lookup
misses), test the lookup (unknown destination error), read into
`bufs[idx][offset:]` (bounds-checked; the copy transfers
`min(len(payload), len(bufs[idx])-offset)` bytes), and write
`sizes[idx]` (bounds-checked). -/
def packetFn (resolve : IPAddr → Option Key) (bufLens : List Nat)
    (sizesLen destsLen offset idx : Nat) (pkt : Packet) : PFRes :=
  if pkt.proto = NetProto.other then PFRes.fail ReadErr.unknownProtocol
  else if pkt.headerValid = false then PFRes.fail ReadErr.invalidHeader
  else if destsLen ≤ idx then PFRes.crash
  else
    match resolve pkt.dest with
    | none => PFRes.fail ReadErr.unknownDestination
    | some dst =>
      match bufLens[idx]? with
      | none => PFRes.crash
      | some cap =>
        if sizesLen ≤ idx then PFRes.crash
        else PFRes.ok (min pkt.payload.length (cap - offset)) dst

/-- A successfully filled batch slot: its index, the value written to
`sizes[idx]`, and the peer written to `destinations[idx]`. -/
structure Fill where
  idx : Nat
  size : Nat
  dest : Key
deriving DecidableEq

/-- The observable outcome of a `Read` call.  `blocks` means the call is
blocked on the first queue receive with nothing pending and the queue
open; `crash` is a Go runtime panic (out-of-bounds index), recording how
many packets had been dequeued; `ret` is a normal return with the count,
the error, the successfully filled slots, and the number of packets
dequeued from the delivery queue during the call. -/
inductive ReadOutcome
  | blocks
  | crash (consumed : Nat)
  | ret (count : Nat) (err : Option ReadErr) (fills : List Fill) (consumed : Nat)
deriving DecidableEq

/-- The drain loop of `sourceSink.Read` (`for count < len(bufs)` with a
non-blocking `select`): `queue` is the list of packets immediately
available on the delivery channel, `closed` whether the channel has been
closed.  An available packet is received first; an empty closed channel
makes the receive case ready with `ok = false` (return `count,
net.ErrClosed`); an empty open channel takes the `default` branch
(return `count, nil`). -/
def readDrain (resolve : IPAddr → Option Key) (bufLens : List Nat)
    (sizesLen destsLen offset : Nat) :
    List Packet → Bool → Nat → List Fill → Nat → ReadOutcome
  | queue, closed, count, fills, consumed =>
    if count < bufLens.length then
      match queue with
      | [] =>
        if closed then ReadOutcome.ret count (some ReadErr.closed) fills consumed
        else ReadOutcome.ret count none fills consumed
      | pkt :: rest =>
        match packetFn resolve bufLens sizesLen destsLen offset count pkt with
        | PFRes.crash => ReadOutcome.crash (consumed + 1)
        | PFRes.fail e => ReadOutcome.ret count (some e) fills (consumed + 1)
        | PFRes.ok n dst =>
          readDrain resolve bufLens sizesLen destsLen offset rest closed (count + 1)
            (fills ++ [⟨count, n, dst⟩]) (consumed + 1)
    else ReadOutcome.ret count none fills consumed

/-- `sourceSink.Read`: block on the first receive (closed queue returns
`0, net.ErrClosed`; an open empty queue blocks), process the first packet
at index 0 without any bounds precheck, then drain opportunistically. -/
def Read (resolve : IPAddr → Option Key) (bufLens : List Nat)
    (sizesLen destsLen offset : Nat) (queue : List Packet) (closed : Bool) : ReadOutcome :=
  match queue with
  | [] =>
    if closed then ReadOutcome.ret 0 (some ReadErr.closed) [] 0
    else ReadOutcome.blocks
  | pkt :: rest =>
    match packetFn resolve bufLens sizesLen destsLen offset 0 pkt with
    | PFRes.crash => ReadOutcome.crash 1
    | PFRes.fail e => ReadOutcome.ret 0 (some e) [] 1
    | PFRes.ok n dst =>
      readDrain resolve bufLens sizesLen destsLen offset rest closed 1 [⟨0, n, dst⟩] 1

/-- Whether processing this packet takes one of `packetFn`'s error
returns: unknown network protocol, invalid header, or unresolvable
destination address. -/
def pktFailsB (resolve : IPAddr → Option Key) (pkt : Packet) : Bool :=
  if pkt.proto = NetProto.other then true
  else if pkt.headerValid = false then true
  else (resolve pkt.dest).isNone

/-- The error `packetFn` reports for a failing packet, in source order:
the protocol switch fires first, then header validation, then
destination resolution. -/
def pktErr (resolve : IPAddr → Option Key) (pkt : Packet) : ReadErr :=
  if pkt.proto = NetProto.other then ReadErr.unknownProtocol
  else if pkt.headerValid = false then ReadErr.invalidHeader
  else if (resolve pkt.dest).isNone then ReadErr.unknownDestination
  else ReadErr.closed

/-- The fill a successful `packetFn` records for packet `pkt` at slot
`i`. -/
def fillOf (resolve : IPAddr → Option Key) (bufLens : List Nat)
    (offset i : Nat) (pkt : Packet) : Fill :=
  ⟨i, min pkt.payload.length (bufLens.getD i 0 - offset), (resolve pkt.dest).getD 0⟩

/-- The fills recorded for a run of consecutively processed packets
starting at slot `start`. -/
def fillsFrom (resolve : IPAddr → Option Key) (bufLens : List Nat)
    (offset : Nat) : Nat → List Packet → List Fill
  | _, [] => []
  | start, pkt :: rest =>
    fillOf resolve bufLens offset start pkt :: fillsFrom resolve bufLens offset (start + 1) rest

/-- Whether a `Read` outcome is a runtime panic. -/
def isCrash : ReadOutcome → Bool
  | ReadOutcome.crash _ => true
  | _ => false

/-! ## Construction (`newSourceSink`) -/

/-- The construction failures `newSourceSink` checks, in source order:
the TCP SACK protocol option, NIC creation, and each
`AddProtocolAddress` call. -/
inductive ConstructionError
  | sackOption
  | createNIC
  | addAddress
deriving DecidableEq

/-- The stack configuration a successful construction produces: the
protocol addresses added to NIC 1 (each tagged with its network
protocol), and whether a default IPv4 (resp. IPv6) route was installed. -/
structure Adapter where
  protoAddrs : List (NetProto × IPAddr)
  hasV4Route : Bool
  hasV6Route : Bool
deriving DecidableEq

/-- The protocol number `newSourceSink` selects for a local address:
`ipv4.ProtocolNumber` when `addr.Is4()`, else `ipv6.ProtocolNumber`
(valid addresses are IPv4 or IPv6). -/
def addrProto (a : IPAddr) : NetProto :=
  if a.isV4 then NetProto.v4 else NetProto.v6

/-- The address loop of `newSourceSink`: add a protocol address of the
matching version for each local address (aborting on the first
`AddProtocolAddress` failure, per the oracle) while tracking whether any
IPv4 and any IPv6 address was seen. -/
def addAddrsLoop (addAddrFails : IPAddr → Bool) :
    List IPAddr → List (NetProto × IPAddr) → Bool → Bool →
      Except ConstructionError (List (NetProto × IPAddr) × Bool × Bool)
  | [], acc, hasV4, hasV6 => Except.ok (acc, hasV4, hasV6)
  | addr :: rest, acc, hasV4, hasV6 =>
    if addAddrFails addr then Except.error ConstructionError.addAddress
    else
      addAddrsLoop addAddrFails rest (acc ++ [(addrProto addr, addr)])
        (hasV4 || addr.isV4) (hasV6 || !addr.isV4)

/-- `newSourceSink`: enable TCP SACK, create NIC 1, add one protocol
address per supplied local address, then install a default IPv4 route
iff some IPv4 address was supplied and a default IPv6 route iff some
IPv6 address was supplied.  Any checked failure aborts construction with
an error and no adapter value. -/
def newSourceSink (sackFails createNICFails : Bool) (addAddrFails : IPAddr → Bool)
    (localAddrs : List IPAddr) : Except ConstructionError Adapter :=
  if sackFails then Except.error ConstructionError.sackOption
  else if createNICFails then Except.error ConstructionError.createNIC
  else
    match addAddrsLoop addAddrFails localAddrs [] false false with
    | Except.error e => Except.error e
    | Except.ok (pas, hasV4, hasV6) => Except.ok ⟨pas, hasV4, hasV6⟩

/-! ## Helper lemmas for the write path -/

theorem headD_drop (l : List Nat) : ∀ n, n < l.length → (l.drop n).headD 0 = l.getD n 0 := by
  induction l with
  | nil => intro n h; simp at h
  | cons a l ih =>
    intro n h
    cases n with
    | zero => simp
    | succ n => simpa using ih n (Nat.lt_of_succ_lt_succ h)

theorem writeLoop_clean (offset : Nat) :
    ∀ (bufs rest : List (List Nat)) (acc : List (NetProto × List Nat)),
      (∀ buf ∈ bufs, buf.length ≤ offset ∨ nibble (buf.getD offset 0) = 4 ∨
        nibble (buf.getD offset 0) = 6) →
      writeLoop offset (bufs ++ rest) acc = writeLoop offset rest (acc ++ goodInjected offset bufs) := by
  intro bufs
  induction bufs with
  | nil => intro rest acc _; simp [goodInjected]
  | cons buf bufs ih =>
    intro rest acc hgood
    have hrest : ∀ b ∈ bufs, b.length ≤ offset ∨ nibble (b.getD offset 0) = 4 ∨
        nibble (b.getD offset 0) = 6 := fun b hb => hgood b (by simp [hb])
    by_cases h1 : buf.length ≤ offset
    · rw [List.cons_append]
      simp only [writeLoop, if_pos h1]
      rw [ih rest acc hrest]
      simp only [goodInjected, if_pos h1]
    · have h46 : nibble (buf.getD offset 0) = 4 ∨ nibble (buf.getD offset 0) = 6 := by
        rcases hgood buf (by simp) with h | h | h
        · exact absurd h h1
        · exact Or.inl h
        · exact Or.inr h
      by_cases h4 : nibble (buf.getD offset 0) = 4
      · rw [List.cons_append]
        simp only [writeLoop, if_neg h1, if_pos h4]
        rw [ih rest _ hrest]
        simp only [goodInjected, if_neg h1, if_pos h4]
        simp [List.append_assoc]
      · have h6 : nibble (buf.getD offset 0) = 6 := h46.resolve_left h4
        rw [List.cons_append]
        simp only [writeLoop, if_neg h1, if_neg h4, if_pos h6]
        rw [ih rest _ hrest]
        simp only [goodInjected, if_neg h1, if_neg h4, if_pos h6]
        simp [List.append_assoc]

theorem Write_injected (bufs : List (List Nat)) (offset : Nat) :
    (Write bufs offset).injected = (writeLoop offset bufs []).2 := by
  unfold Write
  cases hE : writeLoop offset bufs [] with
  | mk oe inj => cases oe <;> simp

theorem writeLoop_inj_mem (offset : Nat) :
    ∀ (bufs : List (List Nat)) (acc : List (NetProto × List Nat))
      (pr : NetProto × List Nat), pr ∈ (writeLoop offset bufs acc).2 → pr ∈ acc ∨
        (pr.2 ≠ [] ∧ ((pr.1 = NetProto.v4 ∧ nibble (pr.2.headD 0) = 4) ∨
          (pr.1 = NetProto.v6 ∧ nibble (pr.2.headD 0) = 6))) := by
  intro bufs
  induction bufs with
  | nil => intro acc pr h; exact Or.inl h
  | cons buf bufs ih =>
    intro acc pr h
    by_cases h1 : buf.length ≤ offset
    · simp only [writeLoop, if_pos h1] at h
      exact ih acc pr h
    · have hlt : offset < buf.length := Nat.not_le.mp h1
      by_cases h4 : nibble (buf.getD offset 0) = 4
      · simp only [writeLoop, if_neg h1, if_pos h4] at h
        rcases ih _ pr h with hmem | hpred
        · rcases List.mem_append.mp hmem with hmem' | hx
          · exact Or.inl hmem'
          · right
            have hx' : pr = (NetProto.v4, buf.drop offset) := by simpa using hx
            subst hx'
            refine ⟨?_, Or.inl ⟨rfl, ?_⟩⟩
            · simp only []
              intro hnil
              rw [List.drop_eq_nil_iff] at hnil
              omega
            · simpa [headD_drop buf offset (by omega)] using h4
        · exact Or.inr hpred
      · by_cases h6 : nibble (buf.getD offset 0) = 6
        · simp only [writeLoop, if_neg h1, if_neg h4, if_pos h6] at h
          rcases ih _ pr h with hmem | hpred
          · rcases List.mem_append.mp hmem with hmem' | hx
            · exact Or.inl hmem'
            · right
              have hx' : pr = (NetProto.v6, buf.drop offset) := by simpa using hx
              subst hx'
              refine ⟨?_, Or.inr ⟨rfl, ?_⟩⟩
              · simp only []
                intro hnil
                rw [List.drop_eq_nil_iff] at hnil
                omega
              · simpa [headD_drop buf offset (by omega)] using h6
          · exact Or.inr hpred
        · simp only [writeLoop, if_neg h1, if_neg h4, if_neg h6] at h
          exact Or.inl h

/-! ## Claims about the write path -/

/-- Claim C1, counterexample: `Write [[0x45], [0x00]] 0` injects the first
payload (one IPv4 injection) and then rejects the second, but returns
count 0, not the count 1 of payloads successfully injected before the
rejection.  This refutes the claim that the returned count equals the
number of payloads injected before the rejection. -/
theorem c1_counterexample :
    (Write [[69], [0]] 0).err = some WriteErr.eafnosupport ∧
      (Write [[69], [0]] 0).injected.length = 1 ∧ (Write [[69], [0]] 0).count = 0 := by
  decide

/-- Claim C1 (amended): for every call to Write whose batch contains a
payload (non-empty after offset) whose leading nibble is neither 4 nor 6,
Write returns an unsupported-address-family error together with count 0
(regardless of how many payloads were already injected), and stops
processing the rest of the batch: exactly the classifiable payloads
strictly before the first rejected one are injected. -/
theorem c1_write_bad_nibble_aborts (pre : List (List Nat)) (bad : List Nat)
    (post : List (List Nat)) (offset : Nat)
    (hpre : ∀ buf ∈ pre, buf.length ≤ offset ∨ nibble (buf.getD offset 0) = 4 ∨
      nibble (buf.getD offset 0) = 6)
    (hlen : offset < bad.length)
    (h4 : nibble (bad.getD offset 0) ≠ 4) (h6 : nibble (bad.getD offset 0) ≠ 6) :
    Write (pre ++ bad :: post) offset =
      ⟨0, some WriteErr.eafnosupport, goodInjected offset pre⟩ := by
  unfold Write
  rw [writeLoop_clean offset pre (bad :: post) [] hpre]
  simp only [writeLoop, if_neg (Nat.not_le.mpr hlen), if_neg h4, if_neg h6, List.nil_append]

theorem c1_write_bad_nibble_aborts_witness :
    (∀ buf ∈ ([[9, 69]] : List (List Nat)), buf.length ≤ 1 ∨ nibble (buf.getD 1 0) = 4 ∨
      nibble (buf.getD 1 0) = 6) ∧
    1 < ([5, 0] : List Nat).length ∧
    nibble (([5, 0] : List Nat).getD 1 0) ≠ 4 ∧ nibble (([5, 0] : List Nat).getD 1 0) ≠ 6 ∧
    Write ([[9, 69]] ++ [5, 0] :: [[1]]) 1 =
      ⟨0, some WriteErr.eafnosupport, goodInjected 1 [[9, 69]]⟩ :=
  ⟨by decide, by decide, by decide, by decide,
    c1_write_bad_nibble_aborts [[9, 69]] [5, 0] [[1]] 1 (by decide) (by decide) (by decide)
      (by decide)⟩

/-- Claim C7, counterexample: in the batch `[[0x00], [0x45]]` the second
payload is non-empty with leading nibble 4, yet nothing at all is
injected because the first payload is rejected and aborts the batch.
This refutes the claim that every non-empty nibble-4 payload of the batch
is injected. -/
theorem c7_counterexample :
    (Write [[0], [69]] 0).injected = [] ∧ nibble 69 = 4 ∧ 0 < ([69] : List Nat).length := by
  decide

/-- Claim C7 (amended): a payload that is empty after offset is never
injected and no payload with a leading nibble other than 4 or 6 is ever
injected — every injection carries a non-empty payload injected under the
protocol matching its leading nibble (4 as IPv4, 6 as IPv6); and provided
no payload of the batch is rejected, every payload that is non-empty
after offset is injected under its matching protocol, in batch order. -/
theorem c7_write_classification :
    (∀ (bufs : List (List Nat)) (offset : Nat) (pr : NetProto × List Nat),
      pr ∈ (Write bufs offset).injected →
        pr.2 ≠ [] ∧ ((pr.1 = NetProto.v4 ∧ nibble (pr.2.headD 0) = 4) ∨
          (pr.1 = NetProto.v6 ∧ nibble (pr.2.headD 0) = 6))) ∧
    (∀ (bufs : List (List Nat)) (offset : Nat),
      (∀ buf ∈ bufs, buf.length ≤ offset ∨ nibble (buf.getD offset 0) = 4 ∨
        nibble (buf.getD offset 0) = 6) →
      (Write bufs offset).injected = goodInjected offset bufs) := by
  constructor
  · intro bufs offset pr hpr
    rw [Write_injected] at hpr
    rcases writeLoop_inj_mem offset bufs [] pr hpr with h | h
    · simp at h
    · exact h
  · intro bufs offset hgood
    have hw := writeLoop_clean offset bufs [] [] hgood
    simp only [List.append_nil, List.nil_append, writeLoop] at hw
    rw [Write_injected, hw]

theorem c7_write_classification_witness :
    ((NetProto.v4, ([69, 2] : List Nat)) ∈ (Write [[69, 2]] 0).injected →
      ((NetProto.v4, ([69, 2] : List Nat)).2 ≠ [] ∧
        (((NetProto.v4, ([69, 2] : List Nat)).1 = NetProto.v4 ∧
            nibble ((NetProto.v4, ([69, 2] : List Nat)).2.headD 0) = 4) ∨
          ((NetProto.v4, ([69, 2] : List Nat)).1 = NetProto.v6 ∧
            nibble ((NetProto.v4, ([69, 2] : List Nat)).2.headD 0) = 6)))) ∧
    (Write [[69, 2], [102]] 0).injected = goodInjected 0 [[69, 2], [102]] :=
  ⟨fun h => c7_write_classification.1 [[69, 2]] 0 (NetProto.v4, [69, 2]) h,
    c7_write_classification.2 [[69, 2], [102]] 0 (by decide)⟩

/-! ## Claims about Close -/

/-- Claim C6, counterexample: when `RemoveNIC` produces an error, Close
still returns nil — the subsystem error is discarded, not reported in
Close's returned error.  (The four teardown steps all still execute, in
order.) -/
theorem c6_counterexample :
    (Close (some ())).err = none ∧
      (Close (some ())).steps =
        [CloseStep.removeNIC, CloseStep.stackClose, CloseStep.epClose, CloseStep.closeQueue] := by
  decide

/-- Claim C6 (amended): Close removes the NIC, closes the stack, closes
the link endpoint, and closes the internal delivery queue, exactly once
each and in that order; errors from the underlying subsystems do not
prevent the remaining teardown steps from executing, but they are
discarded rather than reported — Close always returns nil. -/
theorem c6_close_order (removeNICErr : Option Unit) :
    Close removeNICErr =
      ⟨[CloseStep.removeNIC, CloseStep.stackClose, CloseStep.epClose, CloseStep.closeQueue],
        none⟩ := rfl

/-! ## Helper lemmas for the peer registry -/

theorem foldl_addPeerStep_fromPeerAddress (publicKey : Key) (a : IPAddr) :
    ∀ (addrs : List IPAddr) (r : Registry),
      (addrs.foldl (addPeerStep publicKey) r).fromPeerAddress a =
        if a ∈ addrs then some publicKey else r.fromPeerAddress a := by
  intro addrs
  induction addrs with
  | nil => intro r; simp
  | cons addr rest ih =>
    intro r
    rw [List.foldl_cons, ih]
    by_cases hmem : a ∈ rest
    · simp [hmem]
    · by_cases heq : a = addr
      · simp [hmem, heq, addPeerStep]
      · simp [hmem, heq, addPeerStep]

theorem foldl_addPeerStep_peerAddresses (publicKey : Key) (k : Key) (a : IPAddr) :
    ∀ (addrs : List IPAddr) (r : Registry),
      a ∈ (addrs.foldl (addPeerStep publicKey) r).peerAddresses k ↔
        a ∈ r.peerAddresses k ∨ (k = publicKey ∧ a ∈ addrs) := by
  intro addrs
  induction addrs with
  | nil => intro r; simp
  | cons addr rest ih =>
    intro r
    rw [List.foldl_cons, ih]
    by_cases hk : k = publicKey
    · subst hk
      simp [addPeerStep]
      constructor
      · rintro ((h | h) | h)
        · exact Or.inl h
        · exact Or.inr (Or.inl h)
        · exact Or.inr (Or.inr h)
      · rintro (h | h | h)
        · exact Or.inl (Or.inl h)
        · exact Or.inl (Or.inr h)
        · exact Or.inr h
    · simp [addPeerStep, hk]

theorem AddPeer_fromPeerAddress (r : Registry) (name : String) (publicKey : Key)
    (addrs : List IPAddr) (a : IPAddr) :
    (AddPeer r name publicKey addrs).fromPeerAddress a =
      if a ∈ addrs then some publicKey else r.fromPeerAddress a := by
  unfold AddPeer
  rw [foldl_addPeerStep_fromPeerAddress]
  by_cases hn : name = "" <;> simp [hn]

theorem AddPeer_peerAddresses (r : Registry) (name : String) (publicKey k : Key)
    (addrs : List IPAddr) (a : IPAddr) :
    a ∈ (AddPeer r name publicKey addrs).peerAddresses k ↔
      a ∈ r.peerAddresses k ∨ (k = publicKey ∧ a ∈ addrs) := by
  unfold AddPeer
  rw [foldl_addPeerStep_peerAddresses]
  by_cases hn : name = "" <;> simp [hn]

theorem foldl_AddPeer_fromPeerAddress (a : IPAddr) :
    ∀ (calls : List AddPeerCall) (r : Registry),
      ((calls.foldl (fun r c => AddPeer r c.name c.publicKey c.addrs) r).fromPeerAddress a) =
        calls.foldl (fun acc c => if a ∈ c.addrs then some c.publicKey else acc)
          (r.fromPeerAddress a) := by
  intro calls
  induction calls with
  | nil => intro r; simp
  | cons c rest ih =>
    intro r
    rw [List.foldl_cons, List.foldl_cons, ih, AddPeer_fromPeerAddress]

theorem runCalls_fromPeerAddress (calls : List AddPeerCall) (a : IPAddr) :
    (runCalls calls).fromPeerAddress a = lastRegistrar calls a := by
  unfold runCalls lastRegistrar
  rw [foldl_AddPeer_fromPeerAddress]
  rfl

theorem foldl_AddPeer_peerAddresses (k : Key) (a : IPAddr) :
    ∀ (calls : List AddPeerCall) (r : Registry),
      a ∈ ((calls.foldl (fun r c => AddPeer r c.name c.publicKey c.addrs) r).peerAddresses k) →
        a ∈ r.peerAddresses k ∨ ∃ c ∈ calls, a ∈ c.addrs := by
  intro calls
  induction calls with
  | nil => intro r h; exact Or.inl h
  | cons c rest ih =>
    intro r h
    rw [List.foldl_cons] at h
    rcases ih _ h with h' | h'
    · rcases (AddPeer_peerAddresses r c.name c.publicKey k c.addrs a).mp h' with h'' | h''
      · exact Or.inl h''
      · exact Or.inr ⟨c, by simp, h''.2⟩
    · rcases h' with ⟨c', hc', ha'⟩
      exact Or.inr ⟨c', by simp [hc'], ha'⟩

theorem lastRegistrar_of_isSome (a : IPAddr) :
    ∀ (calls : List AddPeerCall) (init : Option Key), init.isSome = true →
      (calls.foldl (fun acc c => if a ∈ c.addrs then some c.publicKey else acc) init).isSome
        = true := by
  intro calls
  induction calls with
  | nil => intro init h; exact h
  | cons c rest ih =>
    intro init h
    rw [List.foldl_cons]
    by_cases hm : a ∈ c.addrs
    · exact ih _ (by simp [hm])
    · exact ih _ (by simpa [hm] using h)

theorem lastRegistrar_isSome (calls : List AddPeerCall) (a : IPAddr) :
    ∀ c ∈ calls, a ∈ c.addrs → (lastRegistrar calls a).isSome = true := by
  induction calls with
  | nil => intro c hc; simp at hc
  | cons c' rest ih =>
    intro c hc ha
    rcases List.mem_cons.mp hc with hc' | hc'
    · subst hc'
      unfold lastRegistrar
      rw [List.foldl_cons]
      exact lastRegistrar_of_isSome a rest _ (by simp [ha])
    · have := ih c hc' ha
      unfold lastRegistrar at this ⊢
      rw [List.foldl_cons]
      by_cases hm : a ∈ c'.addrs
      · exact lastRegistrar_of_isSome a rest _ (by simp [hm])
      · simpa [hm] using this

theorem lastRegistrar_spec (a : IPAddr) (k : Key) :
    ∀ (calls : List AddPeerCall) (init : Option Key),
      calls.foldl (fun acc c => if a ∈ c.addrs then some c.publicKey else acc) init = some k →
        init = some k ∨ ∃ c ∈ calls, a ∈ c.addrs ∧ c.publicKey = k := by
  intro calls
  induction calls with
  | nil => intro init h; exact Or.inl h
  | cons c rest ih =>
    intro init h
    rw [List.foldl_cons] at h
    by_cases hm : a ∈ c.addrs
    · rw [if_pos hm] at h
      rcases ih _ h with h' | h'
      · exact Or.inr ⟨c, by simp, hm, by simpa using h'⟩
      · rcases h' with ⟨c', hc', ha', hk'⟩
        exact Or.inr ⟨c', by simp [hc'], ha', hk'⟩
    · rw [if_neg hm] at h
      rcases ih _ h with h' | h'
      · exact Or.inl h'
      · rcases h' with ⟨c', hc', ha', hk'⟩
        exact Or.inr ⟨c', by simp [hc'], ha', hk'⟩

theorem lastRegistrar_none (a : IPAddr) :
    ∀ calls : List AddPeerCall, (∀ c ∈ calls, a ∉ c.addrs) → lastRegistrar calls a = none := by
  have general : ∀ (calls : List AddPeerCall) (init : Option Key), (∀ c ∈ calls, a ∉ c.addrs) →
      calls.foldl (fun acc c => if a ∈ c.addrs then some c.publicKey else acc) init = init := by
    intro calls
    induction calls with
    | nil => intro init _; rfl
    | cons c rest ih =>
      intro init h
      rw [List.foldl_cons, if_neg (h c (by simp))]
      exact ih init (fun c' hc' => h c' (by simp [hc']))
  intro calls h
  exact general calls none h

/-! ## Claims about the peer registry -/

/-- Claim C4: for every peer registered via AddPeer with identity P and
address set A(P), under the precondition that no address was registered
for two different peers, the AddressIndex lookup used by Read returns P
for every address in A(P), and returns NotFound (`none`) for every
address never registered for any peer. -/
theorem c4_resolve_peer_by_address (calls : List AddPeerCall)
    (hconf : ∀ c1 ∈ calls, ∀ c2 ∈ calls, ∀ a : IPAddr,
      a ∈ c1.addrs → a ∈ c2.addrs → c1.publicKey = c2.publicKey) :
    (∀ c ∈ calls, ∀ a ∈ c.addrs,
      (runCalls calls).fromPeerAddress a = some c.publicKey) ∧
    (∀ a : IPAddr, (∀ c ∈ calls, a ∉ c.addrs) →
      (runCalls calls).fromPeerAddress a = none) := by
  constructor
  · intro c hc a ha
    rw [runCalls_fromPeerAddress]
    have hsome := lastRegistrar_isSome calls a c hc ha
    rcases Option.isSome_iff_exists.mp hsome with ⟨k, hk⟩
    rcases lastRegistrar_spec a k calls none hk with h | h
    · simp at h
    · rcases h with ⟨c', hc', ha', hk'⟩
      rw [hk]
      rw [← hk', hconf c' hc' c hc a ha' ha]
  · intro a h
    rw [runCalls_fromPeerAddress]
    exact lastRegistrar_none a calls h

theorem c4_resolve_peer_by_address_witness :
    (∀ c1 ∈ ([⟨"b", 7, [⟨2, true⟩]⟩, ⟨"c", 9, [⟨3, false⟩]⟩] : List AddPeerCall),
      ∀ c2 ∈ ([⟨"b", 7, [⟨2, true⟩]⟩, ⟨"c", 9, [⟨3, false⟩]⟩] : List AddPeerCall),
      ∀ a : IPAddr, a ∈ c1.addrs → a ∈ c2.addrs → c1.publicKey = c2.publicKey) ∧
    ((∀ c ∈ ([⟨"b", 7, [⟨2, true⟩]⟩, ⟨"c", 9, [⟨3, false⟩]⟩] : List AddPeerCall), ∀ a ∈ c.addrs,
      (runCalls [⟨"b", 7, [⟨2, true⟩]⟩, ⟨"c", 9, [⟨3, false⟩]⟩]).fromPeerAddress a =
        some c.publicKey) ∧
    (∀ a : IPAddr, (∀ c ∈ ([⟨"b", 7, [⟨2, true⟩]⟩, ⟨"c", 9, [⟨3, false⟩]⟩] : List AddPeerCall),
        a ∉ c.addrs) →
      (runCalls [⟨"b", 7, [⟨2, true⟩]⟩, ⟨"c", 9, [⟨3, false⟩]⟩]).fromPeerAddress a = none)) :=
  ⟨by decide, c4_resolve_peer_by_address [⟨"b", 7, [⟨2, true⟩]⟩, ⟨"c", 9, [⟨3, false⟩]⟩]
    (by decide)⟩

/-- Claim C8: after any sequence of AddPeer calls, every address present
in any peer's address list is a key of the address-to-peer reverse index
(its lookup is `some`), and the reverse index maps every address to
exactly one peer identity — the identity supplied in the most recent
AddPeer call that registered that address (`lastRegistrar`). -/
theorem c8_address_index_invariant (calls : List AddPeerCall) :
    (∀ (k : Key) (a : IPAddr), a ∈ (runCalls calls).peerAddresses k →
      ((runCalls calls).fromPeerAddress a).isSome = true) ∧
    (∀ a : IPAddr, (runCalls calls).fromPeerAddress a = lastRegistrar calls a) := by
  constructor
  · intro k a ha
    rcases foldl_AddPeer_peerAddresses k a calls emptyRegistry ha with h | h
    · simp [emptyRegistry] at h
    · rcases h with ⟨c, hc, ha'⟩
      rw [runCalls_fromPeerAddress]
      exact lastRegistrar_isSome calls a c hc ha'
  · intro a
    exact runCalls_fromPeerAddress calls a

theorem c8_address_index_invariant_witness :
    ((⟨2, true⟩ : IPAddr) ∈
      (runCalls [⟨"b", 7, [⟨2, true⟩]⟩, ⟨"c", 9, [⟨2, true⟩]⟩]).peerAddresses 7 →
      ((runCalls [⟨"b", 7, [⟨2, true⟩]⟩, ⟨"c", 9, [⟨2, true⟩]⟩]).fromPeerAddress
        ⟨2, true⟩).isSome = true) ∧
    (runCalls [⟨"b", 7, [⟨2, true⟩]⟩, ⟨"c", 9, [⟨2, true⟩]⟩]).fromPeerAddress ⟨2, true⟩ =
      lastRegistrar [⟨"b", 7, [⟨2, true⟩]⟩, ⟨"c", 9, [⟨2, true⟩]⟩] ⟨2, true⟩ :=
  ⟨fun h => (c8_address_index_invariant [⟨"b", 7, [⟨2, true⟩]⟩, ⟨"c", 9, [⟨2, true⟩]⟩]).1
      7 ⟨2, true⟩ h,
    (c8_address_index_invariant [⟨"b", 7, [⟨2, true⟩]⟩, ⟨"c", 9, [⟨2, true⟩]⟩]).2 ⟨2, true⟩⟩

/-! ## Helper lemmas for the read path -/

theorem packetFn_fail (resolve : IPAddr → Option Key) (bufLens : List Nat)
    (sizesLen destsLen offset idx : Nat) (pkt : Packet)
    (hidx : idx < destsLen) (hfail : pktFailsB resolve pkt = true) :
    packetFn resolve bufLens sizesLen destsLen offset idx pkt =
      PFRes.fail (pktErr resolve pkt) := by
  unfold pktFailsB at hfail
  by_cases hp : pkt.proto = NetProto.other
  · simp [packetFn, pktErr, hp]
  · by_cases hv : pkt.headerValid = false
    · simp [packetFn, pktErr, hp, hv]
    · rw [if_neg hp, if_neg hv] at hfail
      have hn : resolve pkt.dest = none := Option.isNone_iff_eq_none.mp hfail
      simp [packetFn, pktErr, hp, hv, hn, Nat.not_le.mpr hidx]

theorem packetFn_ok (resolve : IPAddr → Option Key) (bufLens : List Nat)
    (sizesLen destsLen offset idx : Nat) (pkt : Packet)
    (h1 : idx < bufLens.length) (h2 : bufLens.length ≤ sizesLen)
    (h3 : bufLens.length ≤ destsLen) (hok : pktFailsB resolve pkt = false) :
    packetFn resolve bufLens sizesLen destsLen offset idx pkt =
      PFRes.ok (min pkt.payload.length (bufLens.getD idx 0 - offset))
        ((resolve pkt.dest).getD 0) := by
  unfold pktFailsB at hok
  by_cases hp : pkt.proto = NetProto.other
  · simp [hp] at hok
  · by_cases hv : pkt.headerValid = false
    · simp [hp, hv] at hok
    · rw [if_neg hp, if_neg hv] at hok
      cases hres : resolve pkt.dest with
      | none => rw [hres] at hok; simp at hok
      | some dst =>
        have hd : ¬destsLen ≤ idx := Nat.not_le.mpr (Nat.lt_of_lt_of_le h1 h3)
        have hsz : ¬sizesLen ≤ idx := Nat.not_le.mpr (Nat.lt_of_lt_of_le h1 h2)
        simp [packetFn, hp, hv, hd, hsz, hres, List.getElem?_eq_getElem h1,
          List.getD_eq_getElem bufLens 0 h1]

theorem packetFn_ok_bounds (resolve : IPAddr → Option Key) (bufLens : List Nat)
    (sizesLen destsLen offset idx : Nat) (pkt : Packet) (n : Nat) (dst : Key)
    (h : packetFn resolve bufLens sizesLen destsLen offset idx pkt = PFRes.ok n dst) :
    idx < bufLens.length ∧ idx < sizesLen ∧ idx < destsLen := by
  unfold packetFn at h
  by_cases hp : pkt.proto = NetProto.other
  · simp [hp] at h
  · by_cases hv : pkt.headerValid = false
    · simp [hp, hv] at h
    · by_cases hd : destsLen ≤ idx
      · simp [hp, hv, hd] at h
      · cases hres : resolve pkt.dest with
        | none => simp [hp, hv, hd, hres] at h
        | some dst' =>
          cases hb : bufLens[idx]? with
          | none => simp [hp, hv, hd, hres, hb] at h
          | some cap =>
            by_cases hsz : sizesLen ≤ idx
            · simp [hp, hv, hd, hres, hb, hsz] at h
            · have hlt : idx < bufLens.length := by
                by_contra hge
                rw [List.getElem?_eq_none (by omega)] at hb
                cases hb
              exact ⟨hlt, Nat.not_le.mp hsz, Nat.not_le.mp hd⟩

theorem packetFn_no_crash (resolve : IPAddr → Option Key) (bufLens : List Nat)
    (sizesLen destsLen offset idx : Nat) (pkt : Packet)
    (h1 : idx < bufLens.length) (h2 : bufLens.length ≤ sizesLen)
    (h3 : bufLens.length ≤ destsLen) :
    packetFn resolve bufLens sizesLen destsLen offset idx pkt ≠ PFRes.crash := by
  cases hfb : pktFailsB resolve pkt with
  | true =>
    rw [packetFn_fail resolve bufLens sizesLen destsLen offset idx pkt
      (Nat.lt_of_lt_of_le h1 h3) hfb]
    simp
  | false =>
    rw [packetFn_ok resolve bufLens sizesLen destsLen offset idx pkt h1 h2 h3 hfb]
    simp

theorem readDrain_nil (resolve : IPAddr → Option Key) (bufLens : List Nat)
    (sizesLen destsLen offset : Nat) (closed : Bool) (count : Nat) (fills : List Fill)
    (consumed : Nat) :
    readDrain resolve bufLens sizesLen destsLen offset [] closed count fills consumed =
      if count < bufLens.length then
        (if closed then ReadOutcome.ret count (some ReadErr.closed) fills consumed
         else ReadOutcome.ret count none fills consumed)
      else ReadOutcome.ret count none fills consumed := rfl

theorem readDrain_cons (resolve : IPAddr → Option Key) (bufLens : List Nat)
    (sizesLen destsLen offset : Nat) (pkt : Packet) (rest : List Packet) (closed : Bool)
    (count : Nat) (fills : List Fill) (consumed : Nat) :
    readDrain resolve bufLens sizesLen destsLen offset (pkt :: rest) closed count fills consumed =
      if count < bufLens.length then
        (match packetFn resolve bufLens sizesLen destsLen offset count pkt with
          | PFRes.crash => ReadOutcome.crash (consumed + 1)
          | PFRes.fail e => ReadOutcome.ret count (some e) fills (consumed + 1)
          | PFRes.ok n dst =>
            readDrain resolve bufLens sizesLen destsLen offset rest closed (count + 1)
              (fills ++ [⟨count, n, dst⟩]) (consumed + 1))
      else ReadOutcome.ret count none fills consumed := rfl

theorem Read_nil (resolve : IPAddr → Option Key) (bufLens : List Nat)
    (sizesLen destsLen offset : Nat) (closed : Bool) :
    Read resolve bufLens sizesLen destsLen offset [] closed =
      if closed then ReadOutcome.ret 0 (some ReadErr.closed) [] 0
      else ReadOutcome.blocks := rfl

theorem Read_cons (resolve : IPAddr → Option Key) (bufLens : List Nat)
    (sizesLen destsLen offset : Nat) (pkt : Packet) (rest : List Packet) (closed : Bool) :
    Read resolve bufLens sizesLen destsLen offset (pkt :: rest) closed =
      match packetFn resolve bufLens sizesLen destsLen offset 0 pkt with
      | PFRes.crash => ReadOutcome.crash 1
      | PFRes.fail e => ReadOutcome.ret 0 (some e) [] 1
      | PFRes.ok n dst =>
        readDrain resolve bufLens sizesLen destsLen offset rest closed 1 [⟨0, n, dst⟩] 1 := rfl

theorem readDrain_firstFail (resolve : IPAddr → Option Key) (bufLens : List Nat)
    (sizesLen destsLen offset : Nat) (pk : Packet) (post : List Packet) (closed : Bool)
    (hs : bufLens.length ≤ sizesLen) (hd : bufLens.length ≤ destsLen)
    (hfail : pktFailsB resolve pk = true) :
    ∀ (pre : List Packet) (count : Nat) (fills : List Fill) (consumed : Nat),
      count + pre.length < bufLens.length →
      (∀ p ∈ pre, pktFailsB resolve p = false) →
      readDrain resolve bufLens sizesLen destsLen offset (pre ++ pk :: post) closed
          count fills consumed =
        ReadOutcome.ret (count + pre.length) (some (pktErr resolve pk))
          (fills ++ fillsFrom resolve bufLens offset count pre)
          (consumed + pre.length + 1) := by
  intro pre
  induction pre with
  | nil =>
    intro count fills consumed hlen _
    rw [List.nil_append, readDrain_cons, if_pos (by omega),
      packetFn_fail resolve bufLens sizesLen destsLen offset count pk
        (by omega) hfail]
    simp [fillsFrom]
  | cons p pre ih =>
    intro count fills consumed hlen hpre
    have hp : pktFailsB resolve p = false := hpre p (by simp)
    have hlen' : count < bufLens.length := by
      simp only [List.length_cons] at hlen; omega
    rw [List.cons_append, readDrain_cons, if_pos hlen']
    rw [packetFn_ok resolve bufLens sizesLen destsLen offset count p hlen' hs hd hp]
    show readDrain resolve bufLens sizesLen destsLen offset (pre ++ pk :: post) closed
        (count + 1)
        (fills ++ [⟨count, min p.payload.length (bufLens.getD count 0 - offset),
          (resolve p.dest).getD 0⟩]) (consumed + 1) = _
    rw [ih (count + 1) _ (consumed + 1)
      (by simp only [List.length_cons] at hlen ⊢; omega)
      (fun x hx => hpre x (by simp [hx]))]
    simp only [List.length_cons, fillsFrom, fillOf, List.append_assoc, List.singleton_append]
    congr 1 <;> omega

theorem readDrain_allOk (resolve : IPAddr → Option Key) (bufLens : List Nat)
    (sizesLen destsLen offset : Nat)
    (hs : bufLens.length ≤ sizesLen) (hd : bufLens.length ≤ destsLen) :
    ∀ (q : List Packet) (count : Nat) (fills : List Fill) (consumed : Nat),
      count ≤ bufLens.length → (∀ p ∈ q, pktFailsB resolve p = false) →
      readDrain resolve bufLens sizesLen destsLen offset q false count fills consumed =
        ReadOutcome.ret (count + min q.length (bufLens.length - count)) none
          (fills ++ fillsFrom resolve bufLens offset count
            (q.take (min q.length (bufLens.length - count))))
          (consumed + min q.length (bufLens.length - count)) := by
  intro q
  induction q with
  | nil =>
    intro count fills consumed hc _
    rw [readDrain_nil]
    by_cases hlt : count < bufLens.length
    · simp [hlt, fillsFrom]
    · simp [hlt, fillsFrom]
  | cons p rest ih =>
    intro count fills consumed hc hall
    have hp : pktFailsB resolve p = false := hall p (by simp)
    by_cases hlt : count < bufLens.length
    · rw [readDrain_cons, if_pos hlt,
        packetFn_ok resolve bufLens sizesLen destsLen offset count p hlt hs hd hp]
      show readDrain resolve bufLens sizesLen destsLen offset rest false (count + 1)
          (fills ++ [⟨count, min p.payload.length (bufLens.getD count 0 - offset),
            (resolve p.dest).getD 0⟩]) (consumed + 1) = _
      rw [ih (count + 1) _ (consumed + 1) (by omega) (fun x hx => hall x (by simp [hx]))]
      have hm : min (rest.length + 1) (bufLens.length - count) =
          min rest.length (bufLens.length - (count + 1)) + 1 := by omega
      simp only [List.length_cons]
      rw [hm, List.take_succ_cons]
      simp only [fillsFrom, fillOf, List.append_assoc, List.singleton_append]
      congr 1 <;> omega
    · have hc0 : bufLens.length - count = 0 := by omega
      rw [readDrain_cons, if_neg hlt]
      simp [hc0, fillsFrom]

theorem readDrain_ret_bounds (resolve : IPAddr → Option Key) (bufLens : List Nat)
    (sizesLen destsLen offset : Nat) (closed : Bool) :
    ∀ (q : List Packet) (count : Nat) (fills : List Fill) (consumed : Nat)
      (c : Nat) (e : Option ReadErr) (f : List Fill) (cons : Nat),
      count ≤ bufLens.length →
      readDrain resolve bufLens sizesLen destsLen offset q closed count fills consumed =
        ReadOutcome.ret c e f cons →
      c ≤ bufLens.length ∧ cons ≤ consumed + q.length := by
  intro q
  induction q with
  | nil =>
    intro count fills consumed c e f cons hc h
    rw [readDrain_nil] at h
    have hcc : c = count ∧ cons = consumed := by
      by_cases hlt : count < bufLens.length
      · rw [if_pos hlt] at h
        cases closed
        · simp only [Bool.false_eq_true, if_false, ReadOutcome.ret.injEq] at h
          exact ⟨h.1.symm, h.2.2.2.symm⟩
        · simp only [if_true, ReadOutcome.ret.injEq] at h
          exact ⟨h.1.symm, h.2.2.2.symm⟩
      · rw [if_neg hlt] at h
        simp only [ReadOutcome.ret.injEq] at h
        exact ⟨h.1.symm, h.2.2.2.symm⟩
    obtain ⟨h1, h2⟩ := hcc
    subst h1; subst h2
    exact ⟨hc, by simp⟩
  | cons pkt rest ih =>
    intro count fills consumed c e f cons hc h
    rw [readDrain_cons] at h
    by_cases hlt : count < bufLens.length
    · rw [if_pos hlt] at h
      cases hpf : packetFn resolve bufLens sizesLen destsLen offset count pkt with
      | crash => rw [hpf] at h; simp at h
      | fail e' =>
        rw [hpf] at h
        simp only [ReadOutcome.ret.injEq] at h
        obtain ⟨h1, _, _, h4⟩ := h
        constructor
        · omega
        · simp only [List.length_cons]; omega
      | ok n dst =>
        rw [hpf] at h
        have hrec := ih (count + 1) (fills ++ [⟨count, n, dst⟩]) (consumed + 1) c e f cons
          (by omega) h
        constructor
        · exact hrec.1
        · have := hrec.2
          simp only [List.length_cons]
          omega
    · rw [if_neg hlt] at h
      simp only [ReadOutcome.ret.injEq] at h
      obtain ⟨h1, _, _, h4⟩ := h
      constructor
      · omega
      · simp only [List.length_cons]; omega

theorem readDrain_no_crash (resolve : IPAddr → Option Key) (bufLens : List Nat)
    (sizesLen destsLen offset : Nat) (closed : Bool)
    (hs : bufLens.length ≤ sizesLen) (hd : bufLens.length ≤ destsLen) :
    ∀ (q : List Packet) (count : Nat) (fills : List Fill) (consumed : Nat),
      isCrash (readDrain resolve bufLens sizesLen destsLen offset q closed
        count fills consumed) = false := by
  intro q
  induction q with
  | nil =>
    intro count fills consumed
    rw [readDrain_nil]
    by_cases hlt : count < bufLens.length
    · rw [if_pos hlt]; cases closed <;> simp [isCrash]
    · rw [if_neg hlt]; simp [isCrash]
  | cons pkt rest ih =>
    intro count fills consumed
    rw [readDrain_cons]
    by_cases hlt : count < bufLens.length
    · rw [if_pos hlt]
      cases hpf : packetFn resolve bufLens sizesLen destsLen offset count pkt with
      | crash =>
        exact absurd hpf
          (packetFn_no_crash resolve bufLens sizesLen destsLen offset count pkt hlt hs hd)
      | fail e => simp [isCrash]
      | ok n dst => exact ih (count + 1) (fills ++ [⟨count, n, dst⟩]) (consumed + 1)
    · rw [if_neg hlt]; simp [isCrash]

/-! ## Claims about the read path -/

/-- Claim C3: after Close has been called (which closes the delivery
queue), every subsequent or blocked Read call returns a closed error with
count 0 — no slots filled and no packets consumed. -/
theorem c3_read_after_close (resolve : IPAddr → Option Key) (bufLens : List Nat)
    (sizesLen destsLen offset : Nat) :
    Read resolve bufLens sizesLen destsLen offset [] true =
      ReadOutcome.ret 0 (some ReadErr.closed) [] 0 := rfl

/-- Claim C2: when some dequeued packet is malformed (invalid header or
unknown network protocol) or has an unresolvable destination, Read
returns the count of packets successfully filled before it together with
that packet's error; the failing packet is consumed (dequeued and
dropped, not requeued — `pre.length + 1` packets leave the queue) and the
fills of the packets before it are kept. -/
theorem c2_read_first_error (resolve : IPAddr → Option Key) (bufLens : List Nat)
    (sizesLen destsLen offset : Nat) (pre : List Packet) (pk : Packet) (post : List Packet)
    (closed : Bool)
    (hk : pre.length < bufLens.length)
    (hs : bufLens.length ≤ sizesLen) (hd : bufLens.length ≤ destsLen)
    (hpre : ∀ p ∈ pre, pktFailsB resolve p = false)
    (hfail : pktFailsB resolve pk = true) :
    Read resolve bufLens sizesLen destsLen offset (pre ++ pk :: post) closed =
      ReadOutcome.ret pre.length (some (pktErr resolve pk))
        (fillsFrom resolve bufLens offset 0 pre) (pre.length + 1) := by
  cases pre with
  | nil =>
    rw [List.nil_append]
    show (match packetFn resolve bufLens sizesLen destsLen offset 0 pk with
      | PFRes.crash => ReadOutcome.crash 1
      | PFRes.fail e => ReadOutcome.ret 0 (some e) [] 1
      | PFRes.ok n dst =>
        readDrain resolve bufLens sizesLen destsLen offset post closed 1 [⟨0, n, dst⟩] 1) = _
    rw [packetFn_fail resolve bufLens sizesLen destsLen offset 0 pk (by omega) hfail]
    simp [fillsFrom]
  | cons p pre =>
    have hp : pktFailsB resolve p = false := hpre p (by simp)
    have h0 : 0 < bufLens.length := by simp only [List.length_cons] at hk; omega
    rw [List.cons_append]
    show (match packetFn resolve bufLens sizesLen destsLen offset 0 p with
      | PFRes.crash => ReadOutcome.crash 1
      | PFRes.fail e => ReadOutcome.ret 0 (some e) [] 1
      | PFRes.ok n dst =>
        readDrain resolve bufLens sizesLen destsLen offset (pre ++ pk :: post) closed 1
          [⟨0, n, dst⟩] 1) = _
    rw [packetFn_ok resolve bufLens sizesLen destsLen offset 0 p h0 hs hd hp]
    show readDrain resolve bufLens sizesLen destsLen offset (pre ++ pk :: post) closed 1
        [⟨0, min p.payload.length (bufLens.getD 0 0 - offset), (resolve p.dest).getD 0⟩] 1 = _
    rw [readDrain_firstFail resolve bufLens sizesLen destsLen offset pk post closed hs hd hfail
      pre 1 _ 1 (by simp only [List.length_cons] at hk; omega)
      (fun x hx => hpre x (by simp [hx]))]
    simp only [List.length_cons, fillsFrom, fillOf, List.singleton_append]
    congr 1 <;> omega

theorem c2_read_first_error_witness :
    ([⟨NetProto.v4, true, ⟨2, true⟩, [1, 2, 3]⟩] : List Packet).length <
      ([20, 20] : List Nat).length ∧
    ([20, 20] : List Nat).length ≤ 2 ∧ ([20, 20] : List Nat).length ≤ 2 ∧
    (∀ p ∈ ([⟨NetProto.v4, true, ⟨2, true⟩, [1, 2, 3]⟩] : List Packet),
      pktFailsB (fun a => if a.val = 2 then some 7 else none) p = false) ∧
    pktFailsB (fun a => if a.val = 2 then some 7 else none)
      ⟨NetProto.v4, false, ⟨2, true⟩, [9]⟩ = true ∧
    Read (fun a => if a.val = 2 then some 7 else none) [20, 20] 2 2 0
        ([⟨NetProto.v4, true, ⟨2, true⟩, [1, 2, 3]⟩] ++
          ⟨NetProto.v4, false, ⟨2, true⟩, [9]⟩ :: []) false =
      ReadOutcome.ret ([⟨NetProto.v4, true, ⟨2, true⟩, [1, 2, 3]⟩] : List Packet).length
        (some (pktErr (fun a => if a.val = 2 then some 7 else none)
          ⟨NetProto.v4, false, ⟨2, true⟩, [9]⟩))
        (fillsFrom (fun a => if a.val = 2 then some 7 else none) [20, 20] 0 0
          [⟨NetProto.v4, true, ⟨2, true⟩, [1, 2, 3]⟩])
        (([⟨NetProto.v4, true, ⟨2, true⟩, [1, 2, 3]⟩] : List Packet).length + 1) :=
  ⟨by decide, by decide, by decide, by decide, by decide,
    c2_read_first_error (fun a => if a.val = 2 then some 7 else none) [20, 20] 2 2 0
      [⟨NetProto.v4, true, ⟨2, true⟩, [1, 2, 3]⟩] ⟨NetProto.v4, false, ⟨2, true⟩, [9]⟩ [] false
      (by decide) (by decide) (by decide) (by decide) (by decide)⟩

/-- Claim C9: the returned count of a Read call never exceeds the number
of supplied buffers and the call never dequeues more packets than were
available; and once the first packet has been consumed, Read only drains
packets already available — with an open queue and no failing packet it
returns as soon as the queue is empty (or the buffers are full), with
count `min (queue length) (buffer count)` and no error, rather than
blocking for more traffic. -/
theorem c9_read_bounds_nonblocking (resolve : IPAddr → Option Key) (bufLens : List Nat)
    (sizesLen destsLen offset : Nat) (queue : List Packet) (closed : Bool) :
    (∀ (c : Nat) (e : Option ReadErr) (f : List Fill) (cons : Nat),
      Read resolve bufLens sizesLen destsLen offset queue closed = ReadOutcome.ret c e f cons →
        c ≤ bufLens.length ∧ cons ≤ queue.length) ∧
    (0 < bufLens.length → bufLens.length ≤ sizesLen → bufLens.length ≤ destsLen →
      (∀ p ∈ queue, pktFailsB resolve p = false) → queue ≠ [] →
      Read resolve bufLens sizesLen destsLen offset queue false =
        ReadOutcome.ret (min queue.length bufLens.length) none
          (fillsFrom resolve bufLens offset 0 (queue.take (min queue.length bufLens.length)))
          (min queue.length bufLens.length)) := by
  constructor
  · intro c e f cons h
    cases queue with
    | nil =>
      rw [Read_nil] at h
      cases closed
      · simp at h
      · simp only [if_pos rfl, ReadOutcome.ret.injEq] at h
        obtain ⟨h1, _, _, h4⟩ := h
        exact ⟨by omega, by simp only [List.length_nil]; omega⟩
    | cons pkt rest =>
      rw [Read_cons] at h
      cases hpf : packetFn resolve bufLens sizesLen destsLen offset 0 pkt with
      | crash => rw [hpf] at h; simp at h
      | fail e' =>
        rw [hpf] at h
        simp only [ReadOutcome.ret.injEq] at h
        obtain ⟨h1, _, _, h4⟩ := h
        exact ⟨by omega, by simp only [List.length_cons]; omega⟩
      | ok n dst =>
        rw [hpf] at h
        have hb := packetFn_ok_bounds resolve bufLens sizesLen destsLen offset 0 pkt n dst hpf
        have hrec := readDrain_ret_bounds resolve bufLens sizesLen destsLen offset closed
          rest 1 [⟨0, n, dst⟩] 1 c e f cons (by omega) h
        exact ⟨hrec.1, by have := hrec.2; simp only [List.length_cons]; omega⟩
  · intro h0 hs hd hall hne
    cases queue with
    | nil => exact absurd rfl hne
    | cons pkt rest =>
      have hp : pktFailsB resolve pkt = false := hall pkt (by simp)
      show (match packetFn resolve bufLens sizesLen destsLen offset 0 pkt with
        | PFRes.crash => ReadOutcome.crash 1
        | PFRes.fail e => ReadOutcome.ret 0 (some e) [] 1
        | PFRes.ok n dst =>
          readDrain resolve bufLens sizesLen destsLen offset rest false 1 [⟨0, n, dst⟩] 1) = _
      rw [packetFn_ok resolve bufLens sizesLen destsLen offset 0 pkt h0 hs hd hp]
      show readDrain resolve bufLens sizesLen destsLen offset rest false 1
          [⟨0, min pkt.payload.length (bufLens.getD 0 0 - offset), (resolve pkt.dest).getD 0⟩]
          1 = _
      rw [readDrain_allOk resolve bufLens sizesLen destsLen offset hs hd rest 1 _ 1 (by omega)
        (fun x hx => hall x (by simp [hx]))]
      have hm : min (rest.length + 1) bufLens.length =
          min rest.length (bufLens.length - 1) + 1 := by omega
      simp only [List.length_cons]
      rw [hm, List.take_succ_cons]
      simp only [fillsFrom, fillOf, List.nil_append, List.singleton_append]
      congr 1 <;> omega

theorem c9_read_bounds_nonblocking_witness :
    (∀ (c : Nat) (e : Option ReadErr) (f : List Fill) (cons : Nat),
      Read (fun a => if a.val = 2 then some 7 else none) [10] 1 1 0
          [⟨NetProto.v4, true, ⟨2, true⟩, [1, 2]⟩, ⟨NetProto.v4, true, ⟨2, true⟩, [3]⟩] false =
        ReadOutcome.ret c e f cons →
        c ≤ ([10] : List Nat).length ∧
        cons ≤ ([⟨NetProto.v4, true, ⟨2, true⟩, [1, 2]⟩,
          ⟨NetProto.v4, true, ⟨2, true⟩, [3]⟩] : List Packet).length) ∧
    Read (fun a => if a.val = 2 then some 7 else none) [10] 1 1 0
        [⟨NetProto.v4, true, ⟨2, true⟩, [1, 2]⟩, ⟨NetProto.v4, true, ⟨2, true⟩, [3]⟩] false =
      ReadOutcome.ret
        (min ([⟨NetProto.v4, true, ⟨2, true⟩, [1, 2]⟩,
          ⟨NetProto.v4, true, ⟨2, true⟩, [3]⟩] : List Packet).length ([10] : List Nat).length)
        none
        (fillsFrom (fun a => if a.val = 2 then some 7 else none) [10] 0 0
          (([⟨NetProto.v4, true, ⟨2, true⟩, [1, 2]⟩,
            ⟨NetProto.v4, true, ⟨2, true⟩, [3]⟩] : List Packet).take
            (min ([⟨NetProto.v4, true, ⟨2, true⟩, [1, 2]⟩,
              ⟨NetProto.v4, true, ⟨2, true⟩, [3]⟩] : List Packet).length
              ([10] : List Nat).length)))
        (min ([⟨NetProto.v4, true, ⟨2, true⟩, [1, 2]⟩,
          ⟨NetProto.v4, true, ⟨2, true⟩, [3]⟩] : List Packet).length ([10] : List Nat).length) :=
  ⟨(c9_read_bounds_nonblocking (fun a => if a.val = 2 then some 7 else none) [10] 1 1 0
      [⟨NetProto.v4, true, ⟨2, true⟩, [1, 2]⟩, ⟨NetProto.v4, true, ⟨2, true⟩, [3]⟩] false).1,
    (c9_read_bounds_nonblocking (fun a => if a.val = 2 then some 7 else none) [10] 1 1 0
      [⟨NetProto.v4, true, ⟨2, true⟩, [1, 2]⟩, ⟨NetProto.v4, true, ⟨2, true⟩, [3]⟩] false).2
      (by decide) (by decide) (by decide) (by decide) (by decide)⟩

/-- Claim C10, counterexample: with an empty bufs slice but a malformed
first packet (invalid header), Read consumes the packet and returns the
invalid-header error with count 0 — it does not perform any
out-of-bounds access.  This refutes the claim that a call with an empty
bufs slice always reaches an out-of-bounds access at index 0. -/
theorem c10_counterexample :
    Read (fun _ => none) [] 0 0 0 [⟨NetProto.v4, false, ⟨0, true⟩, [1]⟩] false =
      ReadOutcome.ret 0 (some ReadErr.invalidHeader) [] 1 ∧
    isCrash (Read (fun _ => none) [] 0 0 0 [⟨NetProto.v4, false, ⟨0, true⟩, [1]⟩] false)
      = false := by
  decide

/-- Claim C10 (amended): under the precondition that bufs is non-empty
and sizes and destinations are each at least as long as bufs, every
index access into bufs, sizes and destinations during Read is in bounds
(no crash); for a call with an empty bufs slice Read still blocks for
and consumes one packet, and then performs an out-of-bounds access at
index 0 — unless processing of that packet fails before any index access
(malformed packet, or unresolvable destination while destinations is
non-empty), in which case that error is returned with count 0. -/
theorem c10_read_index_safety :
    (∀ (resolve : IPAddr → Option Key) (bufLens : List Nat) (sizesLen destsLen offset : Nat)
      (queue : List Packet) (closed : Bool),
      0 < bufLens.length → bufLens.length ≤ sizesLen → bufLens.length ≤ destsLen →
      isCrash (Read resolve bufLens sizesLen destsLen offset queue closed) = false) ∧
    (∀ (resolve : IPAddr → Option Key) (sizesLen destsLen offset : Nat) (pkt : Packet)
      (rest : List Packet) (closed : Bool),
      pkt.proto ≠ NetProto.other → pkt.headerValid = true →
      (destsLen = 0 ∨ (resolve pkt.dest).isSome = true) →
      Read resolve [] sizesLen destsLen offset (pkt :: rest) closed = ReadOutcome.crash 1) ∧
    (∀ (resolve : IPAddr → Option Key) (sizesLen destsLen offset : Nat) (pkt : Packet)
      (rest : List Packet) (closed : Bool),
      (pkt.proto = NetProto.other ∨ pkt.headerValid = false) →
      Read resolve [] sizesLen destsLen offset (pkt :: rest) closed =
        ReadOutcome.ret 0 (some (pktErr resolve pkt)) [] 1) ∧
    (∀ (resolve : IPAddr → Option Key) (sizesLen destsLen offset : Nat) (pkt : Packet)
      (rest : List Packet) (closed : Bool),
      pkt.proto ≠ NetProto.other → pkt.headerValid = true → 0 < destsLen →
      resolve pkt.dest = none →
      Read resolve [] sizesLen destsLen offset (pkt :: rest) closed =
        ReadOutcome.ret 0 (some ReadErr.unknownDestination) [] 1) := by
  refine ⟨?_, ?_, ?_, ?_⟩
  · intro resolve bufLens sizesLen destsLen offset queue closed h0 hs hd
    cases queue with
    | nil =>
      rw [Read_nil]
      cases closed <;> simp [isCrash]
    | cons pkt rest =>
      rw [Read_cons]
      cases hpf : packetFn resolve bufLens sizesLen destsLen offset 0 pkt with
      | crash =>
        exact absurd hpf
          (packetFn_no_crash resolve bufLens sizesLen destsLen offset 0 pkt h0 hs hd)
      | fail e => simp [isCrash]
      | ok n dst =>
        exact readDrain_no_crash resolve bufLens sizesLen destsLen offset closed hs hd
          rest 1 [⟨0, n, dst⟩] 1
  · intro resolve sizesLen destsLen offset pkt rest closed hp hv hdis
    have hpf : packetFn resolve [] sizesLen destsLen offset 0 pkt = PFRes.crash := by
      by_cases hd0 : destsLen ≤ 0
      · simp [packetFn, hp, hv, hd0]
      · rcases hdis with hd | hres
        · omega
        · obtain ⟨dst, hdst⟩ := Option.isSome_iff_exists.mp hres
          simp [packetFn, hp, hv, hd0, hdst]
    rw [Read_cons, hpf]
  · intro resolve sizesLen destsLen offset pkt rest closed hm
    rcases hm with hp | hv
    · have hpf : packetFn resolve [] sizesLen destsLen offset 0 pkt =
          PFRes.fail (pktErr resolve pkt) := by
        simp [packetFn, pktErr, hp]
      rw [Read_cons, hpf]
    · by_cases hp' : pkt.proto = NetProto.other
      · have hpf : packetFn resolve [] sizesLen destsLen offset 0 pkt =
            PFRes.fail (pktErr resolve pkt) := by
          simp [packetFn, pktErr, hp']
        rw [Read_cons, hpf]
      · have hpf : packetFn resolve [] sizesLen destsLen offset 0 pkt =
            PFRes.fail (pktErr resolve pkt) := by
          simp [packetFn, pktErr, hp', hv]
        rw [Read_cons, hpf]
  · intro resolve sizesLen destsLen offset pkt rest closed hp hv hd hres
    have hpf : packetFn resolve [] sizesLen destsLen offset 0 pkt =
        PFRes.fail ReadErr.unknownDestination := by
      simp [packetFn, hp, hv, Nat.not_le.mpr hd, hres]
    rw [Read_cons, hpf]

theorem c10_read_index_safety_witness :
    isCrash (Read (fun _ => some 5) [8] 1 1 0
      [⟨NetProto.v4, true, ⟨1, true⟩, [1, 2]⟩] false) = false ∧
    Read (fun _ => some 5) [] 1 0 0 [⟨NetProto.v4, true, ⟨1, true⟩, [1, 2]⟩] false =
      ReadOutcome.crash 1 ∧
    Read (fun _ => some 5) [] 1 1 0 [⟨NetProto.other, true, ⟨1, true⟩, [1, 2]⟩] false =
      ReadOutcome.ret 0
        (some (pktErr (fun _ => some 5) ⟨NetProto.other, true, ⟨1, true⟩, [1, 2]⟩)) [] 1 ∧
    Read (fun _ => none) [] 1 1 0 [⟨NetProto.v4, true, ⟨1, true⟩, [1, 2]⟩] false =
      ReadOutcome.ret 0 (some ReadErr.unknownDestination) [] 1 :=
  ⟨c10_read_index_safety.1 (fun _ => some 5) [8] 1 1 0
      [⟨NetProto.v4, true, ⟨1, true⟩, [1, 2]⟩] false (by decide) (by decide) (by decide),
    c10_read_index_safety.2.1 (fun _ => some 5) 1 0 0 ⟨NetProto.v4, true, ⟨1, true⟩, [1, 2]⟩
      [] false (by decide) (by decide) (by decide),
    c10_read_index_safety.2.2.1 (fun _ => some 5) 1 1 0
      ⟨NetProto.other, true, ⟨1, true⟩, [1, 2]⟩ [] false (by decide),
    c10_read_index_safety.2.2.2 (fun _ => none) 1 1 0 ⟨NetProto.v4, true, ⟨1, true⟩, [1, 2]⟩
      [] false (by decide) (by decide) (by decide) (by decide)⟩

/-! ## Helper lemmas and claims for construction -/

theorem addAddrsLoop_ok (addAddrFails : IPAddr → Bool) :
    ∀ (addrs : List IPAddr) (acc : List (NetProto × IPAddr)) (hasV4 hasV6 : Bool),
      (∀ a ∈ addrs, addAddrFails a = false) →
      addAddrsLoop addAddrFails addrs acc hasV4 hasV6 =
        Except.ok (acc ++ addrs.map (fun a => (addrProto a, a)),
          hasV4 || addrs.any (fun a => a.isV4), hasV6 || addrs.any (fun a => !a.isV4)) := by
  intro addrs
  induction addrs with
  | nil => intro acc h4 h6 _; simp [addAddrsLoop]
  | cons a rest ih =>
    intro acc h4 h6 h
    have ha : addAddrFails a = false := h a (by simp)
    simp only [addAddrsLoop, ha, Bool.false_eq_true, if_false]
    rw [ih _ _ _ (fun x hx => h x (by simp [hx]))]
    simp [List.append_assoc, Bool.or_assoc]

theorem addAddrsLoop_err (addAddrFails : IPAddr → Bool) :
    ∀ (addrs : List IPAddr) (acc : List (NetProto × IPAddr)) (hasV4 hasV6 : Bool) (a : IPAddr),
      a ∈ addrs → addAddrFails a = true →
      addAddrsLoop addAddrFails addrs acc hasV4 hasV6 =
        Except.error ConstructionError.addAddress := by
  intro addrs
  induction addrs with
  | nil => intro acc h4 h6 a ha _; simp at ha
  | cons b rest ih =>
    intro acc h4 h6 a ha hf
    by_cases hb : addAddrFails b = true
    · simp [addAddrsLoop, hb]
    · rcases List.mem_cons.mp ha with h | h
      · subst h; exact absurd hf hb
      · simp only [addAddrsLoop, hb, Bool.false_eq_true, if_false]
        exact ih _ _ _ a h hf

/-- Claim C5: construction adds, for each supplied local address, a
protocol address of the matching IP version to the single NIC, and
installs a default IPv4 (resp. IPv6) route iff at least one IPv4
(resp. IPv6) address was supplied; construction succeeds iff none of the
checked stack operations (SACK option, NIC creation, address
installation) fails, and on failure no adapter is produced. -/
theorem c5_construction (sackFails createNICFails : Bool) (addAddrFails : IPAddr → Bool)
    (localAddrs : List IPAddr) :
    ((newSourceSink sackFails createNICFails addAddrFails localAddrs).isOk = true ↔
      (sackFails = false ∧ createNICFails = false ∧
        ∀ a ∈ localAddrs, addAddrFails a = false)) ∧
    (∀ ad : Adapter,
      newSourceSink sackFails createNICFails addAddrFails localAddrs = Except.ok ad →
      ad.protoAddrs = localAddrs.map (fun a => (addrProto a, a)) ∧
      ad.hasV4Route = localAddrs.any (fun a => a.isV4) ∧
      ad.hasV6Route = localAddrs.any (fun a => !a.isV4)) := by
  cases sackFails with
  | true =>
    constructor
    · exact iff_of_false (by simp [newSourceSink, Except.isOk, Except.toBool]) (fun h => by simp at h)
    · intro ad h; simp [newSourceSink] at h
  | false =>
    cases createNICFails with
    | true =>
      constructor
      · exact iff_of_false (by simp [newSourceSink, Except.isOk, Except.toBool])
          (fun h => by simpa using h.2.1)
      · intro ad h; simp [newSourceSink] at h
    | false =>
      by_cases hall : ∀ a ∈ localAddrs, addAddrFails a = false
      · have hloop := addAddrsLoop_ok addAddrFails localAddrs [] false false hall
        constructor
        · exact iff_of_true (by simp [newSourceSink, hloop, Except.isOk, Except.toBool])
            ⟨rfl, rfl, hall⟩
        · intro ad h
          simp only [newSourceSink, hloop, Bool.false_eq_true, if_false] at h
          simp only [Except.ok.injEq] at h
          subst h
          simp
      · have hex : ∃ a ∈ localAddrs, addAddrFails a = true := by
          by_contra hno
          push_neg at hno
          exact hall (fun a ha => by
            have := hno a ha
            cases hfa : addAddrFails a
            · rfl
            · exact absurd hfa this)
        obtain ⟨a, ha, hf⟩ := hex
        have hloop := addAddrsLoop_err addAddrFails localAddrs [] false false a ha hf
        constructor
        · exact iff_of_false (by simp [newSourceSink, hloop, Except.isOk, Except.toBool])
            (fun h => by rw [h.2.2 a ha] at hf; cases hf)
        · intro ad h
          simp [newSourceSink, hloop] at h

theorem c5_construction_witness :
    newSourceSink false false (fun _ => false) [⟨1, true⟩, ⟨2, false⟩] =
      Except.ok ⟨[(NetProto.v4, ⟨1, true⟩), (NetProto.v6, ⟨2, false⟩)], true, true⟩ ∧
    ((⟨[(NetProto.v4, ⟨1, true⟩), (NetProto.v6, ⟨2, false⟩)], true, true⟩ : Adapter).protoAddrs =
        ([⟨1, true⟩, ⟨2, false⟩] : List IPAddr).map (fun a => (addrProto a, a)) ∧
      (⟨[(NetProto.v4, ⟨1, true⟩), (NetProto.v6, ⟨2, false⟩)], true, true⟩ :
          Adapter).hasV4Route =
        ([⟨1, true⟩, ⟨2, false⟩] : List IPAddr).any (fun a => a.isV4) ∧
      (⟨[(NetProto.v4, ⟨1, true⟩), (NetProto.v6, ⟨2, false⟩)], true, true⟩ :
          Adapter).hasV6Route =
        ([⟨1, true⟩, ⟨2, false⟩] : List IPAddr).any (fun a => !a.isV4)) :=
  ⟨rfl,
    (c5_construction false false (fun _ => false) [⟨1, true⟩, ⟨2, false⟩]).2
      ⟨[(NetProto.v4, ⟨1, true⟩), (NetProto.v6, ⟨2, false⟩)], true, true⟩ rfl⟩

end SourceSink
